import Mathlib

/-!
Verification of `qubit_readout` (src/qubit_readout/benchmarking/fidelity.py)
against its specification.

The three entry points `optimal_read_time`, `stc_fidelity` and `er_fidelity`
are shallowly embedded over the real numbers.  The specification declares the
elementary special functions (error function / Gaussian CDF), the generic
adaptive 2-D quadrature routine (`scipy.integrate.dblquad`) and the analog
Bessel-filter synthesis (`scipy.signal.bessel`) to be out-of-scope external
collaborators consumed as black boxes; the embedding therefore abstracts them
into a structure `Ext` of external primitives, with the standard interface
facts of the error function (strictly increasing, range inside (-1, 1))
recorded as fields.  Everything else is translated line by line from the
source.
-/

namespace QubitReadout

/-- External black-box primitives used by `er_fidelity`: the error function
`math.erf` together with its standard interface facts, the generic 2-D
quadrature `scipy.integrate.dblquad(func, a, b, gfun, hfun)[0]` (the integrand
receives the inner variable first), and the analog low-pass Bessel filter
synthesis `scipy.signal.bessel(8, 2*pi*cutoff, 'low', analog, norm='phase')`
returning numerator and denominator coefficient lists. -/
structure Ext where
  erf : ℝ → ℝ
  erf_strictMono : StrictMono erf
  erf_lt_one : ∀ x, erf x < 1
  neg_one_lt_erf : ∀ x, -1 < erf x
  dblquad : (ℝ → ℝ → ℝ) → ℝ → ℝ → (ℝ → ℝ) → (ℝ → ℝ) → ℝ
  bessel : ℝ → List ℝ × List ℝ

/-- Embedding of `optimal_read_time` (fidelity.py lines 34-55): closed-form
optimal readout window from the three characteristic times. -/
noncomputable def optimal_read_time (out_time_excited out_time_ground relax_time : ℝ) : ℝ :=
  let x := relax_time * (out_time_ground - out_time_excited) + out_time_excited * out_time_ground
  (relax_time * out_time_ground * out_time_excited / x) *
    Real.log (out_time_ground * (relax_time + out_time_excited) / (relax_time * out_time_excited))

/-- Embedding of `stc_fidelity` (fidelity.py lines 57-88).  The Python default
`readout_time = None` is the `none` case; the function returns the pair
`(ground_fid, excited_fid)`. -/
noncomputable def stc_fidelity (out_time_excited out_time_ground relax_time : ℝ)
    (readout_time : Option ℝ) : ℝ × ℝ :=
  let rt := match readout_time with
    | none => optimal_read_time out_time_excited out_time_ground relax_time
    | some t => t
  let x := relax_time * (out_time_ground - out_time_excited) + out_time_excited * out_time_ground
  let excited_fid := (1 / x) *
    ((1 - Real.exp (-1 * rt / out_time_ground)) * out_time_ground * out_time_excited +
      (Real.exp (-((relax_time + out_time_excited) * rt) / (out_time_excited * relax_time)) - 1) *
        relax_time * (out_time_excited - out_time_ground))
  let ground_fid := Real.exp (-1 * rt / out_time_ground)
  (ground_fid, excited_fid)

/-- Embedding of `numpy.polyval(p, x)`: Horner evaluation, highest coefficient
first, at a complex point. -/
def polyval (p : List ℝ) (x : ℂ) : ℂ :=
  p.foldl (fun acc c => acc * x + (c : ℂ)) 0

/-- Scan underlying `numpy.argmax`: keeps the running best value and its index,
updating only on a strictly larger value, so ties resolve to the first
occurrence of the maximum. -/
noncomputable def argmaxGo : List ℝ → ℕ → ℕ → ℝ → ℕ
  | [], _, bi, _ => bi
  | x :: xs, i, bi, bv => if bv < x then argmaxGo xs (i + 1) i x else argmaxGo xs (i + 1) bi bv

/-- Embedding of `numpy.argmax` on a list of reals: index of the first
occurrence of the maximum (`0` on the empty list). -/
noncomputable def argmax : List ℝ → ℕ
  | [] => 0
  | x :: xs => argmaxGo xs 1 0 x

/-- Parameters of one call of `er_fidelity` (fidelity.py line 90).  The Python
default for `threshold_num` is `1001`. -/
structure ErParams where
  out_time_excited : ℝ
  in_time_ground : ℝ
  readout_time : ℝ
  snr : ℝ
  sample_rate : ℝ
  filter_cutoff : ℝ
  threshold_num : ℕ

namespace Er

/-- Gaussian CDF `ncdf` (fidelity.py lines 127-129), via the black-box error
function of `ext`. -/
noncomputable def ncdf (ext : Ext) (x mu sigma : ℝ) : ℝ :=
  0.5 * (1 + ext.erf ((x - mu) / (Real.sqrt 2 * sigma)))

/-- Value `sample_time = 1 / sample_rate` (fidelity.py line 132). -/
noncomputable def sample_time (P : ErParams) : ℝ :=
  1 / P.sample_rate

/-- Value `fr = 2 * filter_cutoff * sample_time` (fidelity.py line 134). -/
noncomputable def fr (P : ErParams) : ℝ :=
  2 * P.filter_cutoff * sample_time P

/-- Value `tnr = 2*fr/(fr+1) if fr < 1 else 1` (fidelity.py line 135). -/
noncomputable def tnr (P : ErParams) : ℝ :=
  if fr P < 1 then 2 * fr P / (fr P + 1) else 1

/-- Value `nr = (readout_time / sample_time) * tnr` (fidelity.py line 137). -/
noncomputable def nr (P : ErParams) : ℝ :=
  (P.readout_time / sample_time P) * tnr P

/-- Value `nh = in_time_ground / sample_time` (fidelity.py line 138). -/
noncomputable def nh (P : ErParams) : ℝ :=
  P.in_time_ground / sample_time P

/-- Value `nl = out_time_excited / sample_time` (fidelity.py line 139). -/
noncomputable def nl (P : ErParams) : ℝ :=
  P.out_time_excited / sample_time P

/-- Value `mul = 0` (fidelity.py line 141). -/
noncomputable def mul : ℝ := 0

/-- Value `muh = 1` (fidelity.py line 142). -/
noncomputable def muh : ℝ := 1

/-- Value `noise = 1 / snr` (fidelity.py line 144). -/
noncomputable def noise (P : ErParams) : ℝ :=
  1 / P.snr

/-- Entry `i` of `numpy.linspace(0, 1, threshold_num)`: `i / (threshold_num - 1)`. -/
noncomputable def thresholdVal (P : ErParams) (i : ℕ) : ℝ :=
  (i : ℝ) / ((P.threshold_num : ℝ) - 1)

/-- Vector `thresholds = numpy.linspace(0, 1, threshold_num)` (fidelity.py
line 146). -/
noncomputable def thresholds (P : ErParams) : List ℝ :=
  (List.range P.threshold_num).map (thresholdVal P)

/-- Vector `cl = numpy.power(ncdf2(thresholds, mul, noise), nr)` (fidelity.py
line 148), the baseline no-transition probabilities. -/
noncomputable def cl (ext : Ext) (P : ErParams) : List ℝ :=
  (thresholds P).map (fun t => ncdf ext t mul (noise P) ^ nr P)

/-- Filter magnitude response `funa` (fidelity.py lines 152-156): absolute
value of the order-8 Bessel transfer function at `f * 1j`, with coefficients
from the black-box synthesis at `filter_cutoff`. -/
noncomputable def funa (ext : Ext) (P : ErParams) (f : ℝ) : ℝ :=
  let ba := ext.bessel P.filter_cutoff
  Complex.abs (polyval ba.1 (f * Complex.I) / polyval ba.2 (f * Complex.I))

/-- Value `nr_inv = 1 / nr` (fidelity.py line 158). -/
noncomputable def nr_inv (P : ErParams) : ℝ :=
  1 / nr P

/-- Value `t_inv = 1 / (tnr * sample_time)` (fidelity.py line 159). -/
noncomputable def t_inv (P : ErParams) : ℝ :=
  1 / (tnr P * sample_time P)

/-- Vector `ncdf_l = ncdf2(thresholds, mul, noise)` (fidelity.py line 160). -/
noncomputable def ncdf_l (ext : Ext) (P : ErParams) : List ℝ :=
  (thresholds P).map (fun t => ncdf ext t mul (noise P))

/-- Value `nl_inv = 1 / nl` (fidelity.py line 162). -/
noncomputable def nl_inv (P : ErParams) : ℝ :=
  1 / nl P

/-- Value `nh_inv = 1 / nh` (fidelity.py line 163). -/
noncomputable def nh_inv (P : ErParams) : ℝ :=
  1 / nh P

/-- Inner discrimination probability `Sn(n, v, vj)` (fidelity.py lines
165-171). -/
noncomputable def Sn (ext : Ext) (P : ErParams) (n v : ℝ) (vj : ℕ) : ℝ :=
  (n * nr_inv P * ncdf ext v ((muh - mul) * funa ext P (t_inv P / n) + mul) (noise P) +
    (1 - n * nr_inv P) * (ncdf_l ext P).getD vj 0) ^ nr P

/-- Excited-state escape-time density `en(s)` (fidelity.py lines 173-176). -/
noncomputable def en (P : ErParams) (s : ℝ) : ℝ :=
  Real.exp ((1 - s) * nl_inv P) / (1 - Real.exp (-(nr P) * nl_inv P)) * nl_inv P

/-- Ground-state escape-time density `etan(n)` (fidelity.py lines 178-181). -/
noncomputable def etan (P : ErParams) (n : ℝ) : ℝ :=
  Real.exp ((1 - n) * nh_inv P) * nh_inv P

/-- Integrand `fun1(v, j, n, s)` (fidelity.py lines 183-185). -/
noncomputable def fun1 (ext : Ext) (P : ErParams) (v : ℝ) (j : ℕ) (n s : ℝ) : ℝ :=
  en P s * etan P n * Sn ext P n v j

/-- Integrand `fun2(v, j, n, s)` (fidelity.py lines 187-189). -/
noncomputable def fun2 (ext : Ext) (P : ErParams) (v : ℝ) (j : ℕ) (n s : ℝ) : ℝ :=
  en P s * etan P n * Sn ext P (nr P - s) v j

/-- Vector `ch` (fidelity.py lines 191-192): per threshold `j` with value
`v = thresholds[j]`, the sum of the two black-box double integrals of `fun1`
over `{1 <= s <= nr-1, 1 <= n <= nr-s}` and of `fun2` over
`{1 <= s <= nr-1, nr-s <= n <= 20*nh}`. -/
noncomputable def ch (ext : Ext) (P : ErParams) : List ℝ :=
  (List.range P.threshold_num).map (fun j =>
    ext.dblquad (fun1 ext P (thresholdVal P j) j) 1 (nr P - 1) (fun _ => 1) (fun x => nr P - x) +
      ext.dblquad (fun2 ext P (thresholdVal P j) j) 1 (nr P - 1) (fun x => nr P - x)
        (fun _ => 20 * nh P))

/-- Value `ri = tnr / nh` (fidelity.py line 194). -/
noncomputable def ri (P : ErParams) : ℝ :=
  tnr P / nh P

/-- Value `ro = tnr / nl`, nudged by `0.0001` when it equals `ri` exactly
(fidelity.py lines 195-197). -/
noncomputable def ro (P : ErParams) : ℝ :=
  if tnr P / nl P = ri P then tnr P / nl P + 0.0001 else tnr P / nl P

/-- Average-transitions correction `navg` (fidelity.py line 199). -/
noncomputable def navg (P : ErParams) : ℝ :=
  1 - ((1 - Real.exp (ro P / 2 - ri P / 2)) * ro P) /
    ((1 - Real.exp (ro P / 2)) * (ro P - ri P))

/-- Vector `excited_fid = (1 - navg) * (1 - ch) + navg * (1 - cl)`
(fidelity.py line 202), elementwise over the two per-threshold vectors. -/
noncomputable def excited_fid (ext : Ext) (P : ErParams) : List ℝ :=
  List.zipWith (fun chj clj => (1 - navg P) * (1 - chj) + navg P * (1 - clj)) (ch ext P) (cl ext P)

/-- Vector `vis = ground_fid + excited_fid - 1` (fidelity.py line 204), with
`ground_fid = cl` (fidelity.py line 201). -/
noncomputable def vis (ext : Ext) (P : ErParams) : List ℝ :=
  List.zipWith (fun g e => g + e - 1) (cl ext P) (excited_fid ext P)

end Er

/-- Embedding of `er_fidelity` (fidelity.py lines 90-208): returns the 5-tuple
`(thresholds, ground_fid, excited_fid, vis, idx)` with `ground_fid = cl`
(line 201) and `idx = numpy.argmax(vis)` (line 206). -/
noncomputable def er_fidelity (ext : Ext)
    (out_time_excited in_time_ground readout_time snr sample_rate filter_cutoff : ℝ)
    (threshold_num : ℕ) : List ℝ × List ℝ × List ℝ × List ℝ × ℕ :=
  let P : ErParams :=
    ⟨out_time_excited, in_time_ground, readout_time, snr, sample_rate, filter_cutoff,
      threshold_num⟩
  (Er.thresholds P, Er.cl ext P, Er.excited_fid ext P, Er.vis ext P, argmax (Er.vis ext P))

/-- Concrete instance of the external primitives, used to evaluate the
embedding at explicit inputs: a strictly increasing sigmoid with range
`(-1, 1)` for the error function, the zero functional for the quadrature and
empty coefficient lists for the filter synthesis. -/
noncomputable def ext₀ : Ext where
  erf := fun x => 2 / Real.pi * Real.arctan x
  erf_strictMono := by
    have h : (0 : ℝ) < 2 / Real.pi := by positivity
    exact fun a b hab => (mul_lt_mul_left h).mpr (Real.arctan_strictMono hab)
  erf_lt_one := by
    intro x
    have hpi : (0 : ℝ) < Real.pi := Real.pi_pos
    have h1 : Real.arctan x < Real.pi / 2 := Real.arctan_lt_pi_div_two x
    have h2 : 2 / Real.pi * Real.arctan x < 2 / Real.pi * (Real.pi / 2) := by
      have hc : (0 : ℝ) < 2 / Real.pi := by positivity
      exact (mul_lt_mul_left hc).mpr h1
    have h3 : 2 / Real.pi * (Real.pi / 2) = 1 := by
      field_simp
    linarith
  neg_one_lt_erf := by
    intro x
    have hpi : (0 : ℝ) < Real.pi := Real.pi_pos
    have h1 : -(Real.pi / 2) < Real.arctan x := Real.neg_pi_div_two_lt_arctan x
    have h2 : 2 / Real.pi * (-(Real.pi / 2)) < 2 / Real.pi * Real.arctan x := by
      have hc : (0 : ℝ) < 2 / Real.pi := by positivity
      exact (mul_lt_mul_left hc).mpr h1
    have h3 : 2 / Real.pi * (-(Real.pi / 2)) = -1 := by
      field_simp
      ring
    linarith
  dblquad := fun _ _ _ _ _ => 0
  bessel := fun _ => ([], [])

/-- Element of a mapped range at a valid index. -/
theorem getD_map_range (f : ℕ → ℝ) {n i : ℕ} (h : i < n) :
    ((List.range n).map f).getD i 0 = f i := by
  have hlen : i < ((List.range n).map f).length := by simpa using h
  rw [List.getD_eq_getElem _ _ hlen]
  simp

/-- Element of a zipWith at an index valid for both lists. -/
theorem getD_zipWith (f : ℝ → ℝ → ℝ) (l₁ l₂ : List ℝ) {i : ℕ}
    (h₁ : i < l₁.length) (h₂ : i < l₂.length) :
    (List.zipWith f l₁ l₂).getD i 0 = f (l₁.getD i 0) (l₂.getD i 0) := by
  have hlen : i < (List.zipWith f l₁ l₂).length := by
    rw [List.length_zipWith]
    omega
  rw [List.getD_eq_getElem _ _ hlen, List.getD_eq_getElem _ _ h₁, List.getD_eq_getElem _ _ h₂]
  simp

theorem Er.length_thresholds (P : ErParams) :
    (Er.thresholds P).length = P.threshold_num := by
  simp [Er.thresholds]

theorem Er.length_cl (ext : Ext) (P : ErParams) :
    (Er.cl ext P).length = P.threshold_num := by
  simp [Er.cl, Er.thresholds]

theorem Er.length_ch (ext : Ext) (P : ErParams) :
    (Er.ch ext P).length = P.threshold_num := by
  simp [Er.ch]

theorem Er.length_excited_fid (ext : Ext) (P : ErParams) :
    (Er.excited_fid ext P).length = P.threshold_num := by
  simp [Er.excited_fid, Er.length_ch, Er.length_cl]

theorem Er.length_vis (ext : Ext) (P : ErParams) :
    (Er.vis ext P).length = P.threshold_num := by
  simp [Er.vis, Er.length_cl, Er.length_excited_fid]

theorem Er.thresholds_getD (P : ErParams) {i : ℕ} (h : i < P.threshold_num) :
    (Er.thresholds P).getD i 0 = Er.thresholdVal P i :=
  getD_map_range _ h

theorem Er.cl_getD (ext : Ext) (P : ErParams) {i : ℕ} (h : i < P.threshold_num) :
    (Er.cl ext P).getD i 0 =
      Er.ncdf ext (Er.thresholdVal P i) Er.mul (Er.noise P) ^ Er.nr P := by
  unfold Er.cl Er.thresholds
  rw [List.map_map]
  exact getD_map_range _ h

theorem Er.ch_getD (ext : Ext) (P : ErParams) {i : ℕ} (h : i < P.threshold_num) :
    (Er.ch ext P).getD i 0 =
      ext.dblquad (Er.fun1 ext P (Er.thresholdVal P i) i) 1 (Er.nr P - 1)
          (fun _ => 1) (fun x => Er.nr P - x) +
        ext.dblquad (Er.fun2 ext P (Er.thresholdVal P i) i) 1 (Er.nr P - 1)
          (fun x => Er.nr P - x) (fun _ => 20 * Er.nh P) := by
  unfold Er.ch
  exact getD_map_range _ h

theorem Er.excited_fid_getD (ext : Ext) (P : ErParams) {i : ℕ} (h : i < P.threshold_num) :
    (Er.excited_fid ext P).getD i 0 =
      (1 - Er.navg P) * (1 - (Er.ch ext P).getD i 0) +
        Er.navg P * (1 - (Er.cl ext P).getD i 0) := by
  unfold Er.excited_fid
  exact getD_zipWith _ _ _ (by rw [Er.length_ch]; exact h) (by rw [Er.length_cl]; exact h)

theorem Er.vis_getD (ext : Ext) (P : ErParams) {i : ℕ} (h : i < P.threshold_num) :
    (Er.vis ext P).getD i 0 =
      (Er.cl ext P).getD i 0 + (Er.excited_fid ext P).getD i 0 - 1 := by
  unfold Er.vis
  exact getD_zipWith _ _ _ (by rw [Er.length_cl]; exact h)
    (by rw [Er.length_excited_fid]; exact h)

theorem Er.sample_time_pos (P : ErParams) (h : 0 < P.sample_rate) :
    0 < Er.sample_time P :=
  one_div_pos.mpr h

theorem Er.fr_pos (P : ErParams) (hsr : 0 < P.sample_rate) (hfc : 0 < P.filter_cutoff) :
    0 < Er.fr P :=
  mul_pos (mul_pos two_pos hfc) (Er.sample_time_pos P hsr)

theorem Er.tnr_pos (P : ErParams) (hsr : 0 < P.sample_rate) (hfc : 0 < P.filter_cutoff) :
    0 < Er.tnr P := by
  have hfr : 0 < Er.fr P := Er.fr_pos P hsr hfc
  unfold Er.tnr
  split
  · exact div_pos (by linarith) (by linarith)
  · exact one_pos

theorem Er.nr_pos (P : ErParams) (hrt : 0 < P.readout_time) (hsr : 0 < P.sample_rate)
    (hfc : 0 < P.filter_cutoff) : 0 < Er.nr P :=
  mul_pos (div_pos hrt (Er.sample_time_pos P hsr)) (Er.tnr_pos P hsr hfc)

theorem Er.nh_pos (P : ErParams) (hig : 0 < P.in_time_ground) (hsr : 0 < P.sample_rate) :
    0 < Er.nh P :=
  div_pos hig (Er.sample_time_pos P hsr)

theorem Er.nl_pos (P : ErParams) (hoe : 0 < P.out_time_excited) (hsr : 0 < P.sample_rate) :
    0 < Er.nl P :=
  div_pos hoe (Er.sample_time_pos P hsr)

theorem Er.noise_pos (P : ErParams) (hsnr : 0 < P.snr) : 0 < Er.noise P :=
  one_div_pos.mpr hsnr

theorem Er.ncdf_pos (ext : Ext) (x mu sigma : ℝ) : 0 < Er.ncdf ext x mu sigma := by
  have h := ext.neg_one_lt_erf ((x - mu) / (Real.sqrt 2 * sigma))
  unfold Er.ncdf
  linarith

theorem Er.ncdf_lt_one (ext : Ext) (x mu sigma : ℝ) : Er.ncdf ext x mu sigma < 1 := by
  have h := ext.erf_lt_one ((x - mu) / (Real.sqrt 2 * sigma))
  unfold Er.ncdf
  linarith

theorem Er.ncdf_lt_ncdf (ext : Ext) {x y : ℝ} (mu : ℝ) {sigma : ℝ} (hs : 0 < sigma)
    (hxy : x < y) : Er.ncdf ext x mu sigma < Er.ncdf ext y mu sigma := by
  have hden : 0 < Real.sqrt 2 * sigma :=
    mul_pos (Real.sqrt_pos.mpr two_pos) hs
  have harg : (x - mu) / (Real.sqrt 2 * sigma) < (y - mu) / (Real.sqrt 2 * sigma) :=
    div_lt_div_of_pos_right (by linarith) hden
  have := ext.erf_strictMono harg
  unfold Er.ncdf
  linarith

/-- Invariant of the `argmaxGo` scan: either no element of the remaining list
beats the running best value, and the running best index is returned, or the
first occurrence of the maximum of the remaining list beats it and its
absolute index is returned. -/
theorem argmaxGo_spec (xs : List ℝ) : ∀ (i bi : ℕ) (bv : ℝ),
    (argmaxGo xs i bi bv = bi ∧ ∀ k, k < xs.length → xs.getD k 0 ≤ bv) ∨
    (∃ k, k < xs.length ∧ argmaxGo xs i bi bv = i + k ∧ bv < xs.getD k 0 ∧
      (∀ m, m < xs.length → xs.getD m 0 ≤ xs.getD k 0) ∧
      (∀ m, m < k → xs.getD m 0 < xs.getD k 0)) := by
  induction xs with
  | nil =>
    intro i bi bv
    left
    exact ⟨rfl, fun k hk => absurd hk (Nat.not_lt_zero k)⟩
  | cons x t ih =>
    intro i bi bv
    by_cases hx : bv < x
    · rcases ih (i + 1) i x with ⟨heq, hall⟩ | ⟨k, hk, heq, hlt, hmax, hfirst⟩
      · right
        refine ⟨0, by simp, ?_, ?_, ?_, ?_⟩
        · simpa [argmaxGo, hx] using heq
        · simpa [List.getD_cons_zero] using hx
        · intro m hm
          match m with
          | 0 => simp
          | Nat.succ m' =>
            simp only [List.getD_cons_succ, List.getD_cons_zero]
            exact hall m' (by simp only [List.length_cons] at hm; omega)
        · intro m hm
          exact absurd hm (Nat.not_lt_zero m)
      · right
        refine ⟨k + 1, by simp only [List.length_cons]; omega, ?_, ?_, ?_, ?_⟩
        · have hstep : argmaxGo (x :: t) i bi bv = argmaxGo t (i + 1) i x := by
            simp [argmaxGo, hx]
          rw [hstep, heq]
          omega
        · simp only [List.getD_cons_succ]
          linarith
        · intro m hm
          match m with
          | 0 =>
            simp only [List.getD_cons_zero, List.getD_cons_succ]
            linarith
          | Nat.succ m' =>
            simp only [List.getD_cons_succ]
            exact hmax m' (by simp only [List.length_cons] at hm; omega)
        · intro m hm
          match m with
          | 0 =>
            simp only [List.getD_cons_zero, List.getD_cons_succ]
            linarith
          | Nat.succ m' =>
            simp only [List.getD_cons_succ]
            exact hfirst m' (by omega)
    · rcases ih (i + 1) bi bv with ⟨heq, hall⟩ | ⟨k, hk, heq, hlt, hmax, hfirst⟩
      · left
        constructor
        · simpa [argmaxGo, hx] using heq
        · intro m hm
          match m with
          | 0 =>
            simp only [List.getD_cons_zero]
            exact not_lt.mp hx
          | Nat.succ m' =>
            simp only [List.getD_cons_succ]
            exact hall m' (by simp only [List.length_cons] at hm; omega)
      · right
        refine ⟨k + 1, by simp only [List.length_cons]; omega, ?_, ?_, ?_, ?_⟩
        · have hstep : argmaxGo (x :: t) i bi bv = argmaxGo t (i + 1) bi bv := by
            simp [argmaxGo, hx]
          rw [hstep, heq]
          omega
        · simp only [List.getD_cons_succ]
          exact hlt
        · intro m hm
          match m with
          | 0 =>
            simp only [List.getD_cons_zero, List.getD_cons_succ]
            have hxbv : x ≤ bv := not_lt.mp hx
            linarith
          | Nat.succ m' =>
            simp only [List.getD_cons_succ]
            exact hmax m' (by simp only [List.length_cons] at hm; omega)
        · intro m hm
          match m with
          | 0 =>
            simp only [List.getD_cons_zero, List.getD_cons_succ]
            have hxbv : x ≤ bv := not_lt.mp hx
            linarith
          | Nat.succ m' =>
            simp only [List.getD_cons_succ]
            exact hfirst m' (by omega)

/-- Correctness of the `numpy.argmax` embedding on a nonempty list: the result
is a valid index of a maximal element, and every earlier element is strictly
smaller (ties resolve to the first occurrence). -/
theorem argmax_spec (l : List ℝ) (h : 0 < l.length) :
    argmax l < l.length ∧
    (∀ i, i < l.length → l.getD i 0 ≤ l.getD (argmax l) 0) ∧
    (∀ j, j < argmax l → l.getD j 0 < l.getD (argmax l) 0) := by
  match l with
  | [] => exact absurd h (by simp)
  | x :: t =>
    have hdef : argmax (x :: t) = argmaxGo t 1 0 x := rfl
    rcases argmaxGo_spec t 1 0 x with ⟨heq, hall⟩ | ⟨k, hk, heq, hlt, hmax, hfirst⟩
    · rw [hdef, heq]
      refine ⟨by simp, ?_, ?_⟩
      · intro i hi
        match i with
        | 0 => simp
        | Nat.succ i' =>
          simp only [List.getD_cons_succ, List.getD_cons_zero]
          exact hall i' (by simp only [List.length_cons] at hi; omega)
      · intro j hj
        exact absurd hj (Nat.not_lt_zero j)
    · have h1k : (1 : ℕ) + k = k + 1 := Nat.add_comm 1 k
      rw [hdef, heq, h1k]
      refine ⟨by simp only [List.length_cons]; omega, ?_, ?_⟩
      · intro i hi
        match i with
        | 0 =>
          simp only [List.getD_cons_zero, List.getD_cons_succ]
          linarith
        | Nat.succ i' =>
          simp only [List.getD_cons_succ]
          exact hmax i' (by simp only [List.length_cons] at hi; omega)
      · intro j hj
        match j with
        | 0 =>
          simp only [List.getD_cons_zero, List.getD_cons_succ]
          exact hlt
        | Nat.succ j' =>
          simp only [List.getD_cons_succ]
          exact hfirst j' (by omega)

/-- C3: for every valid call of `er_fidelity` and every index `i` in
`[0, threshold_num)`, the returned visibility vector satisfies
`vis[i] = ground_fid[i] + excited_fid[i] - 1` exactly, where `ground_fid`,
`excited_fid` and `vis` are the second, third and fourth components of the
returned 5-tuple. -/
theorem er_vis_identity (ext : Ext) (oe ig rt snr sr fc : ℝ) (N : ℕ)
    (hoe : 0 < oe) (hig : 0 < ig) (hrt : 0 < rt) (hsnr : 0 < snr) (hsr : 0 < sr)
    (hfc : 0 < fc) (hN : 2 ≤ N) (i : ℕ) (hi : i < N) :
    (er_fidelity ext oe ig rt snr sr fc N).2.2.2.1.getD i 0 =
      (er_fidelity ext oe ig rt snr sr fc N).2.1.getD i 0 +
        (er_fidelity ext oe ig rt snr sr fc N).2.2.1.getD i 0 - 1 :=
  Er.vis_getD ext ⟨oe, ig, rt, snr, sr, fc, N⟩ hi

/-- Witness for `er_vis_identity` at a concrete valid input. -/
theorem er_vis_identity_inst :
    (er_fidelity ext₀ 1 1 1 1 1 1 2).2.2.2.1.getD 0 0 =
      (er_fidelity ext₀ 1 1 1 1 1 1 2).2.1.getD 0 0 +
        (er_fidelity ext₀ 1 1 1 1 1 1 2).2.2.1.getD 0 0 - 1 :=
  er_vis_identity ext₀ 1 1 1 1 1 1 2 (by norm_num) (by norm_num) (by norm_num)
    (by norm_num) (by norm_num) (by norm_num) (by norm_num) 0 (by norm_num)

/-- C4: for every valid call of `er_fidelity`, the returned index (fifth
component) is the argmax of the returned `vis` vector: it is a valid index,
`vis[idx] >= vis[i]` for every `i` in `[0, threshold_num)`, and every index
before `idx` carries a strictly smaller visibility, so ties resolve to the
first maximal index. -/
theorem er_best_index_argmax (ext : Ext) (oe ig rt snr sr fc : ℝ) (N : ℕ)
    (hoe : 0 < oe) (hig : 0 < ig) (hrt : 0 < rt) (hsnr : 0 < snr) (hsr : 0 < sr)
    (hfc : 0 < fc) (hN : 2 ≤ N) :
    (er_fidelity ext oe ig rt snr sr fc N).2.2.2.2 < N ∧
    (∀ i, i < N →
      (er_fidelity ext oe ig rt snr sr fc N).2.2.2.1.getD i 0 ≤
        (er_fidelity ext oe ig rt snr sr fc N).2.2.2.1.getD
          ((er_fidelity ext oe ig rt snr sr fc N).2.2.2.2) 0) ∧
    (∀ j, j < (er_fidelity ext oe ig rt snr sr fc N).2.2.2.2 →
      (er_fidelity ext oe ig rt snr sr fc N).2.2.2.1.getD j 0 <
        (er_fidelity ext oe ig rt snr sr fc N).2.2.2.1.getD
          ((er_fidelity ext oe ig rt snr sr fc N).2.2.2.2) 0) := by
  have hlen : 0 < (Er.vis ext ⟨oe, ig, rt, snr, sr, fc, N⟩).length := by
    rw [Er.length_vis]
    show 0 < N
    omega
  have h := argmax_spec (Er.vis ext ⟨oe, ig, rt, snr, sr, fc, N⟩) hlen
  rw [Er.length_vis] at h
  exact h

/-- Witness for `er_best_index_argmax` at a concrete valid input. -/
theorem er_best_index_argmax_inst :
    (er_fidelity ext₀ 1 1 1 1 1 1 2).2.2.2.2 < 2 ∧
    (∀ i, i < 2 →
      (er_fidelity ext₀ 1 1 1 1 1 1 2).2.2.2.1.getD i 0 ≤
        (er_fidelity ext₀ 1 1 1 1 1 1 2).2.2.2.1.getD
          ((er_fidelity ext₀ 1 1 1 1 1 1 2).2.2.2.2) 0) ∧
    (∀ j, j < (er_fidelity ext₀ 1 1 1 1 1 1 2).2.2.2.2 →
      (er_fidelity ext₀ 1 1 1 1 1 1 2).2.2.2.1.getD j 0 <
        (er_fidelity ext₀ 1 1 1 1 1 1 2).2.2.2.1.getD
          ((er_fidelity ext₀ 1 1 1 1 1 1 2).2.2.2.2) 0) :=
  er_best_index_argmax ext₀ 1 1 1 1 1 1 2 (by norm_num) (by norm_num) (by norm_num)
    (by norm_num) (by norm_num) (by norm_num) (by norm_num)

/-- C6: for all strictly positive time constants, calling `stc_fidelity` with
`readout_time` omitted (`none`) returns exactly the same pair as calling it
explicitly with `readout_time = optimal_read_time(...)`. -/
theorem stc_default_window (oe og r : ℝ) (hoe : 0 < oe) (hog : 0 < og) (hr : 0 < r) :
    stc_fidelity oe og r none = stc_fidelity oe og r (some (optimal_read_time oe og r)) :=
  rfl

/-- Witness for `stc_default_window` at a concrete valid input. -/
theorem stc_default_window_inst :
    stc_fidelity 1 2 3 none = stc_fidelity 1 2 3 (some (optimal_read_time 1 2 3)) :=
  stc_default_window 1 2 3 (by norm_num) (by norm_num) (by norm_num)

/-- C7: for every valid call of `er_fidelity` with `threshold_num = N >= 2`,
the returned `thresholds` vector has exactly `N` entries, starts at `0.0`,
ends at `1.0`, is strictly increasing with even spacing `1/(N-1)`, and the
returned `ground_fid`, `excited_fid` and `vis` vectors also have exactly `N`
entries, aligned index-by-index. -/
theorem er_threshold_grid (ext : Ext) (oe ig rt snr sr fc : ℝ) (N : ℕ)
    (hoe : 0 < oe) (hig : 0 < ig) (hrt : 0 < rt) (hsnr : 0 < snr) (hsr : 0 < sr)
    (hfc : 0 < fc) (hN : 2 ≤ N) :
    (er_fidelity ext oe ig rt snr sr fc N).1.length = N ∧
    (er_fidelity ext oe ig rt snr sr fc N).2.1.length = N ∧
    (er_fidelity ext oe ig rt snr sr fc N).2.2.1.length = N ∧
    (er_fidelity ext oe ig rt snr sr fc N).2.2.2.1.length = N ∧
    (er_fidelity ext oe ig rt snr sr fc N).1.getD 0 0 = 0 ∧
    (er_fidelity ext oe ig rt snr sr fc N).1.getD (N - 1) 0 = 1 ∧
    (∀ i, i + 1 < N →
      (er_fidelity ext oe ig rt snr sr fc N).1.getD i 0 <
        (er_fidelity ext oe ig rt snr sr fc N).1.getD (i + 1) 0) ∧
    (∀ i, i + 1 < N →
      (er_fidelity ext oe ig rt snr sr fc N).1.getD (i + 1) 0 -
        (er_fidelity ext oe ig rt snr sr fc N).1.getD i 0 = 1 / ((N : ℝ) - 1)) := by
  have hN2 : (2 : ℝ) ≤ (N : ℝ) := by exact_mod_cast hN
  have hden : (0 : ℝ) < (N : ℝ) - 1 := by linarith
  refine ⟨Er.length_thresholds _, Er.length_cl ext _, Er.length_excited_fid ext _,
    Er.length_vis ext _, ?_, ?_, ?_, ?_⟩
  · show (Er.thresholds (⟨oe, ig, rt, snr, sr, fc, N⟩ : ErParams)).getD 0 0 = 0
    rw [Er.thresholds_getD _ (show 0 < N by omega)]
    simp [Er.thresholdVal]
  · show (Er.thresholds (⟨oe, ig, rt, snr, sr, fc, N⟩ : ErParams)).getD (N - 1) 0 = 1
    rw [Er.thresholds_getD _ (show N - 1 < N by omega)]
    unfold Er.thresholdVal
    show ((N - 1 : ℕ) : ℝ) / ((N : ℝ) - 1) = 1
    rw [Nat.cast_sub (by omega), Nat.cast_one]
    exact div_self (ne_of_gt hden)
  · intro i hi
    show (Er.thresholds (⟨oe, ig, rt, snr, sr, fc, N⟩ : ErParams)).getD i 0 <
      (Er.thresholds (⟨oe, ig, rt, snr, sr, fc, N⟩ : ErParams)).getD (i + 1) 0
    rw [Er.thresholds_getD _ (show i < N by omega),
      Er.thresholds_getD _ (show i + 1 < N by omega)]
    unfold Er.thresholdVal
    show (i : ℝ) / ((N : ℝ) - 1) < ((i + 1 : ℕ) : ℝ) / ((N : ℝ) - 1)
    push_cast
    exact div_lt_div_of_pos_right (by linarith) hden
  · intro i hi
    show (Er.thresholds (⟨oe, ig, rt, snr, sr, fc, N⟩ : ErParams)).getD (i + 1) 0 -
      (Er.thresholds (⟨oe, ig, rt, snr, sr, fc, N⟩ : ErParams)).getD i 0 = 1 / ((N : ℝ) - 1)
    rw [Er.thresholds_getD _ (show i + 1 < N by omega),
      Er.thresholds_getD _ (show i < N by omega)]
    unfold Er.thresholdVal
    show ((i + 1 : ℕ) : ℝ) / ((N : ℝ) - 1) - (i : ℝ) / ((N : ℝ) - 1) = 1 / ((N : ℝ) - 1)
    rw [div_sub_div_same]
    push_cast
    ring_nf

/-- Witness for `er_threshold_grid` at a concrete valid input. -/
theorem er_threshold_grid_inst :
    (er_fidelity ext₀ 1 1 1 1 1 1 2).1.length = 2 ∧
    (er_fidelity ext₀ 1 1 1 1 1 1 2).2.1.length = 2 ∧
    (er_fidelity ext₀ 1 1 1 1 1 1 2).2.2.1.length = 2 ∧
    (er_fidelity ext₀ 1 1 1 1 1 1 2).2.2.2.1.length = 2 ∧
    (er_fidelity ext₀ 1 1 1 1 1 1 2).1.getD 0 0 = 0 ∧
    (er_fidelity ext₀ 1 1 1 1 1 1 2).1.getD (2 - 1) 0 = 1 ∧
    (∀ i, i + 1 < 2 →
      (er_fidelity ext₀ 1 1 1 1 1 1 2).1.getD i 0 <
        (er_fidelity ext₀ 1 1 1 1 1 1 2).1.getD (i + 1) 0) ∧
    (∀ i, i + 1 < 2 →
      (er_fidelity ext₀ 1 1 1 1 1 1 2).1.getD (i + 1) 0 -
        (er_fidelity ext₀ 1 1 1 1 1 1 2).1.getD i 0 = 1 / ((2 : ℝ) - 1)) :=
  er_threshold_grid ext₀ 1 1 1 1 1 1 2 (by norm_num) (by norm_num) (by norm_num)
    (by norm_num) (by norm_num) (by norm_num) (by norm_num)

/-- Entry `i` of the `ground_fid` component of the `er_fidelity` result, as the
Gaussian CDF at threshold `i` raised to the normalized readout count. -/
theorem er_ground_getD (ext : Ext) (oe ig rt snr sr fc : ℝ) (N : ℕ) {i : ℕ} (hi : i < N) :
    (er_fidelity ext oe ig rt snr sr fc N).2.1.getD i 0 =
      Er.ncdf ext (Er.thresholdVal ⟨oe, ig, rt, snr, sr, fc, N⟩ i) Er.mul
        (Er.noise ⟨oe, ig, rt, snr, sr, fc, N⟩) ^ Er.nr ⟨oe, ig, rt, snr, sr, fc, N⟩ :=
  Er.cl_getD ext ⟨oe, ig, rt, snr, sr, fc, N⟩ hi

/-- Strict monotonicity of the threshold grid values in the index. -/
theorem Er.thresholdVal_lt (P : ErParams) {i j : ℕ} (hN : 2 ≤ P.threshold_num)
    (hij : i < j) : Er.thresholdVal P i < Er.thresholdVal P j := by
  have h2 : (2 : ℝ) ≤ (P.threshold_num : ℝ) := by exact_mod_cast hN
  unfold Er.thresholdVal
  exact div_lt_div_of_pos_right (by exact_mod_cast hij) (by linarith)

/-- C1: for every valid call of `er_fidelity`, the returned `ground_fid`
vector equals `cl`, with `cl[i] = ncdf(thresholds[i], 0, 1/snr) ^ nr` — the
Gaussian CDF at threshold `i`, with mean `0` and standard deviation `1/snr`,
raised to the normalized readout count `nr` — and the returned `excited_fid`
vector satisfies `excited_fid[i] = (1-navg)*(1-ch[i]) + navg*(1-cl[i])` for
every index `i`, with `navg` the average-transitions correction and `ch[i]`
the double-integral transition-detection probability. -/
theorem er_fidelity_formulas (ext : Ext) (oe ig rt snr sr fc : ℝ) (N : ℕ)
    (hoe : 0 < oe) (hig : 0 < ig) (hrt : 0 < rt) (hsnr : 0 < snr) (hsr : 0 < sr)
    (hfc : 0 < fc) (hN : 2 ≤ N) :
    (er_fidelity ext oe ig rt snr sr fc N).2.1 = Er.cl ext ⟨oe, ig, rt, snr, sr, fc, N⟩ ∧
    (∀ i, i < N →
      (er_fidelity ext oe ig rt snr sr fc N).2.1.getD i 0 =
        Er.ncdf ext ((er_fidelity ext oe ig rt snr sr fc N).1.getD i 0) 0 (1 / snr) ^
          Er.nr ⟨oe, ig, rt, snr, sr, fc, N⟩) ∧
    (∀ i, i < N →
      (er_fidelity ext oe ig rt snr sr fc N).2.2.1.getD i 0 =
        (1 - Er.navg ⟨oe, ig, rt, snr, sr, fc, N⟩) *
            (1 - (Er.ch ext ⟨oe, ig, rt, snr, sr, fc, N⟩).getD i 0) +
          Er.navg ⟨oe, ig, rt, snr, sr, fc, N⟩ *
            (1 - (er_fidelity ext oe ig rt snr sr fc N).2.1.getD i 0)) := by
  refine ⟨rfl, ?_, ?_⟩
  · intro i hi
    rw [er_ground_getD ext oe ig rt snr sr fc N hi]
    have ht : (er_fidelity ext oe ig rt snr sr fc N).1.getD i 0 =
        Er.thresholdVal ⟨oe, ig, rt, snr, sr, fc, N⟩ i :=
      Er.thresholds_getD ⟨oe, ig, rt, snr, sr, fc, N⟩ hi
    rw [ht]
    rfl
  · intro i hi
    show (Er.excited_fid ext ⟨oe, ig, rt, snr, sr, fc, N⟩).getD i 0 = _
    rw [Er.excited_fid_getD ext ⟨oe, ig, rt, snr, sr, fc, N⟩ hi]
    rfl

/-- Witness for `er_fidelity_formulas` at a concrete valid input. -/
theorem er_fidelity_formulas_inst :
    (er_fidelity ext₀ 1 1 1 1 1 1 2).2.1 = Er.cl ext₀ ⟨1, 1, 1, 1, 1, 1, 2⟩ ∧
    (∀ i, i < 2 →
      (er_fidelity ext₀ 1 1 1 1 1 1 2).2.1.getD i 0 =
        Er.ncdf ext₀ ((er_fidelity ext₀ 1 1 1 1 1 1 2).1.getD i 0) 0 (1 / 1) ^
          Er.nr ⟨1, 1, 1, 1, 1, 1, 2⟩) ∧
    (∀ i, i < 2 →
      (er_fidelity ext₀ 1 1 1 1 1 1 2).2.2.1.getD i 0 =
        (1 - Er.navg ⟨1, 1, 1, 1, 1, 1, 2⟩) *
            (1 - (Er.ch ext₀ ⟨1, 1, 1, 1, 1, 1, 2⟩).getD i 0) +
          Er.navg ⟨1, 1, 1, 1, 1, 1, 2⟩ *
            (1 - (er_fidelity ext₀ 1 1 1 1 1 1 2).2.1.getD i 0)) :=
  er_fidelity_formulas ext₀ 1 1 1 1 1 1 2 (by norm_num) (by norm_num) (by norm_num)
    (by norm_num) (by norm_num) (by norm_num) (by norm_num)

/-- C2 counterexample: at the valid input `out_time_excited = 1`,
`in_time_ground = 1`, `readout_time = 1`, `snr = 1`, `sample_rate = 1`,
`filter_cutoff = 1`, `threshold_num = 2`, the returned `ground_fid` vector
strictly increases from index 0 to index 1, so it is not monotonically
non-increasing in the threshold index. -/
theorem er_ground_fid_increases :
    (er_fidelity ext₀ 1 1 1 1 1 1 2).2.1.getD 0 0 <
      (er_fidelity ext₀ 1 1 1 1 1 1 2).2.1.getD 1 0 := by
  rw [er_ground_getD ext₀ 1 1 1 1 1 1 2 (show 0 < 2 by norm_num),
    er_ground_getD ext₀ 1 1 1 1 1 1 2 (show 1 < 2 by norm_num)]
  have hnr : Er.nr ⟨1, 1, 1, 1, 1, 1, 2⟩ = 1 := by
    norm_num [Er.nr, Er.tnr, Er.fr, Er.sample_time]
  rw [hnr, Real.rpow_one, Real.rpow_one]
  refine Er.ncdf_lt_ncdf ext₀ Er.mul ?_ ?_
  · norm_num [Er.noise]
  · exact Er.thresholdVal_lt _ (by norm_num) (by norm_num)

/-- C2 (amended): for every valid call of `er_fidelity`, every entry of the
returned `ground_fid` vector lies in `(0, 1]`, and the `ground_fid` sequence
is monotonically non-decreasing as the threshold index increases. -/
theorem er_ground_fid_bounds_mono (ext : Ext) (oe ig rt snr sr fc : ℝ) (N : ℕ)
    (hoe : 0 < oe) (hig : 0 < ig) (hrt : 0 < rt) (hsnr : 0 < snr) (hsr : 0 < sr)
    (hfc : 0 < fc) (hN : 2 ≤ N) :
    (∀ i, i < N →
      0 < (er_fidelity ext oe ig rt snr sr fc N).2.1.getD i 0 ∧
        (er_fidelity ext oe ig rt snr sr fc N).2.1.getD i 0 ≤ 1) ∧
    (∀ i, i + 1 < N →
      (er_fidelity ext oe ig rt snr sr fc N).2.1.getD i 0 ≤
        (er_fidelity ext oe ig rt snr sr fc N).2.1.getD (i + 1) 0) := by
  have hnr : 0 < Er.nr ⟨oe, ig, rt, snr, sr, fc, N⟩ :=
    Er.nr_pos _ hrt hsr hfc
  have hnoise : 0 < Er.noise ⟨oe, ig, rt, snr, sr, fc, N⟩ :=
    Er.noise_pos _ hsnr
  constructor
  · intro i hi
    rw [er_ground_getD ext oe ig rt snr sr fc N hi]
    have hb0 := Er.ncdf_pos ext (Er.thresholdVal ⟨oe, ig, rt, snr, sr, fc, N⟩ i) Er.mul
      (Er.noise ⟨oe, ig, rt, snr, sr, fc, N⟩)
    have hb1 := Er.ncdf_lt_one ext (Er.thresholdVal ⟨oe, ig, rt, snr, sr, fc, N⟩ i) Er.mul
      (Er.noise ⟨oe, ig, rt, snr, sr, fc, N⟩)
    exact ⟨Real.rpow_pos_of_pos hb0 _, Real.rpow_le_one hb0.le hb1.le hnr.le⟩
  · intro i hi
    rw [er_ground_getD ext oe ig rt snr sr fc N (show i < N by omega),
      er_ground_getD ext oe ig rt snr sr fc N (show i + 1 < N by omega)]
    have hb0 := Er.ncdf_pos ext (Er.thresholdVal ⟨oe, ig, rt, snr, sr, fc, N⟩ i) Er.mul
      (Er.noise ⟨oe, ig, rt, snr, sr, fc, N⟩)
    have hmono : Er.ncdf ext (Er.thresholdVal ⟨oe, ig, rt, snr, sr, fc, N⟩ i) Er.mul
        (Er.noise ⟨oe, ig, rt, snr, sr, fc, N⟩) <
        Er.ncdf ext (Er.thresholdVal ⟨oe, ig, rt, snr, sr, fc, N⟩ (i + 1)) Er.mul
          (Er.noise ⟨oe, ig, rt, snr, sr, fc, N⟩) :=
      Er.ncdf_lt_ncdf ext Er.mul hnoise (Er.thresholdVal_lt _ hN (by omega))
    exact Real.rpow_le_rpow hb0.le hmono.le hnr.le

/-- Witness for `er_ground_fid_bounds_mono` at a concrete valid input. -/
theorem er_ground_fid_bounds_mono_inst :
    (∀ i, i < 2 →
      0 < (er_fidelity ext₀ 1 1 1 1 1 1 2).2.1.getD i 0 ∧
        (er_fidelity ext₀ 1 1 1 1 1 1 2).2.1.getD i 0 ≤ 1) ∧
    (∀ i, i + 1 < 2 →
      (er_fidelity ext₀ 1 1 1 1 1 1 2).2.1.getD i 0 ≤
        (er_fidelity ext₀ 1 1 1 1 1 1 2).2.1.getD (i + 1) 0) :=
  er_ground_fid_bounds_mono ext₀ 1 1 1 1 1 1 2 (by norm_num) (by norm_num) (by norm_num)
    (by norm_num) (by norm_num) (by norm_num) (by norm_num)

/-- C5 counterexample: at `out_time_excited = 2`, `out_time_ground = 1`,
`relax_time = 2` — strictly positive time constants with unequal out-times —
the internal denominator `x = relax_time*(out_time_ground - out_time_excited)
+ out_time_excited*out_time_ground` is exactly zero, the source divides by
zero, and the embedded `optimal_read_time` yields `0`, not a strictly
positive value. -/
theorem optimal_read_time_degenerate :
    ((0 : ℝ) < 2 ∧ (0 : ℝ) < 1 ∧ (1 : ℝ) ≠ 2 ∧
      (2 : ℝ) * (1 - 2) + 2 * 1 = 0) ∧
    ¬ 0 < optimal_read_time 2 1 2 := by
  refine ⟨⟨by norm_num, by norm_num, by norm_num, by norm_num⟩, ?_⟩
  have h : optimal_read_time 2 1 2 = 0 := by
    unfold optimal_read_time
    norm_num
  rw [h]
  exact lt_irrefl 0

/-- C5 (amended): for all strictly positive time constants whose internal
denominator `x = relax_time*(out_time_ground - out_time_excited) +
out_time_excited*out_time_ground` is nonzero, `optimal_read_time` returns a
(finite) strictly positive real value.  The hypothesis `x ≠ 0` replaces the
claim's `out_time_ground ≠ out_time_excited`, which does not exclude the
degenerate denominator. -/
theorem optimal_read_time_pos (oe og r : ℝ) (hoe : 0 < oe) (hog : 0 < og) (hr : 0 < r)
    (hx : r * (og - oe) + oe * og ≠ 0) : 0 < optimal_read_time oe og r := by
  have hroe : 0 < r * oe := mul_pos hr hoe
  have hkey : og * (r + oe) / (r * oe) - 1 = (r * (og - oe) + oe * og) / (r * oe) := by
    field_simp
    ring
  show 0 < r * og * oe / (r * (og - oe) + oe * og) *
    Real.log (og * (r + oe) / (r * oe))
  rcases lt_or_gt_of_ne hx with hneg | hpos
  · have hfrac : (r * (og - oe) + oe * og) / (r * oe) < 0 :=
      div_neg_of_neg_of_pos hneg hroe
    have hL1 : og * (r + oe) / (r * oe) < 1 := by linarith
    have hL0 : 0 < og * (r + oe) / (r * oe) :=
      div_pos (mul_pos hog (by linarith)) hroe
    have hlog : Real.log (og * (r + oe) / (r * oe)) < 0 := Real.log_neg hL0 hL1
    have hpre : r * og * oe / (r * (og - oe) + oe * og) < 0 :=
      div_neg_of_pos_of_neg (mul_pos (mul_pos hr hog) hoe) hneg
    exact mul_pos_of_neg_of_neg hpre hlog
  · have hfrac : 0 < (r * (og - oe) + oe * og) / (r * oe) :=
      div_pos hpos hroe
    have hL1 : 1 < og * (r + oe) / (r * oe) := by linarith
    have hlog : 0 < Real.log (og * (r + oe) / (r * oe)) := Real.log_pos hL1
    have hpre : 0 < r * og * oe / (r * (og - oe) + oe * og) :=
      div_pos (mul_pos (mul_pos hr hog) hoe) hpos
    exact mul_pos hpre hlog

/-- Witness for `optimal_read_time_pos` at a concrete valid input. -/
theorem optimal_read_time_pos_inst : 0 < optimal_read_time 1 2 3 :=
  optimal_read_time_pos 1 2 3 (by norm_num) (by norm_num) (by norm_num) (by norm_num)

/-- C10: for strictly positive inputs with equal out-times, the internal
denominator `x` of `optimal_read_time` equals
`out_time_excited * out_time_ground`, is strictly positive, and
`optimal_read_time` returns a (finite, in fact strictly positive) real value
with no division by zero; and `x` vanishes only when
`out_time_ground < out_time_excited`, never at equality. -/
theorem optimal_read_time_equal_out_times (oe og r : ℝ) (hoe : 0 < oe) (hog : 0 < og)
    (hr : 0 < r) :
    (og = oe →
      r * (og - oe) + oe * og = oe * og ∧
        0 < r * (og - oe) + oe * og ∧
        0 < optimal_read_time oe og r) ∧
    (r * (og - oe) + oe * og = 0 → og < oe) := by
  constructor
  · intro heq
    rw [heq]
    refine ⟨by ring, by nlinarith, ?_⟩
    show 0 < r * oe * oe / (r * (oe - oe) + oe * oe) *
      Real.log (oe * (r + oe) / (r * oe))
    have hx : r * (oe - oe) + oe * oe = oe * oe := by ring
    rw [hx]
    have hpre : 0 < r * oe * oe / (oe * oe) :=
      div_pos (mul_pos (mul_pos hr hoe) hoe) (mul_pos hoe hoe)
    have hL : 1 < oe * (r + oe) / (r * oe) := by
      rw [lt_div_iff₀ (mul_pos hr hoe)]
      nlinarith
    exact mul_pos hpre (Real.log_pos hL)
  · intro h0
    by_contra hcon
    push_neg at hcon
    nlinarith [mul_pos hoe hog, mul_nonneg hr.le (sub_nonneg.mpr hcon)]

/-- Witness for `optimal_read_time_equal_out_times` at a concrete valid
input with equal out-times. -/
theorem optimal_read_time_equal_out_times_inst :
    ((1 : ℝ) = 1 →
      (1 : ℝ) * (1 - 1) + 1 * 1 = 1 * 1 ∧
        (0 : ℝ) < 1 * (1 - 1) + 1 * 1 ∧
        0 < optimal_read_time 1 1 1) ∧
    ((1 : ℝ) * (1 - 1) + 1 * 1 = 0 → (1 : ℝ) < 1) :=
  optimal_read_time_equal_out_times 1 1 1 (by norm_num) (by norm_num) (by norm_num)

/-- C8: in `er_fidelity`, with the effective rates `ri = tnr/nh` and
`ro = tnr/nl`, if `ri` equals `ro` exactly then `ro` is perturbed by the
epsilon `0.0001` before `navg` is computed, and for any valid inputs the
denominator `(ro - ri)` of the `navg` closed form — and the full denominator
`(1 - exp(ro/2)) * (ro - ri)` — is never zero, so `navg` involves no division
by zero. -/
theorem er_navg_denominator (oe ig rt snr sr fc : ℝ) (N : ℕ)
    (hoe : 0 < oe) (hig : 0 < ig) (hrt : 0 < rt) (hsnr : 0 < snr) (hsr : 0 < sr)
    (hfc : 0 < fc) (hN : 2 ≤ N) :
    (Er.tnr ⟨oe, ig, rt, snr, sr, fc, N⟩ / Er.nl ⟨oe, ig, rt, snr, sr, fc, N⟩ =
        Er.ri ⟨oe, ig, rt, snr, sr, fc, N⟩ →
      Er.ro ⟨oe, ig, rt, snr, sr, fc, N⟩ =
        Er.tnr ⟨oe, ig, rt, snr, sr, fc, N⟩ / Er.nl ⟨oe, ig, rt, snr, sr, fc, N⟩ + 0.0001) ∧
    Er.ro ⟨oe, ig, rt, snr, sr, fc, N⟩ - Er.ri ⟨oe, ig, rt, snr, sr, fc, N⟩ ≠ 0 ∧
    (1 - Real.exp (Er.ro ⟨oe, ig, rt, snr, sr, fc, N⟩ / 2)) *
      (Er.ro ⟨oe, ig, rt, snr, sr, fc, N⟩ - Er.ri ⟨oe, ig, rt, snr, sr, fc, N⟩) ≠ 0 := by
  have htnr : 0 < Er.tnr ⟨oe, ig, rt, snr, sr, fc, N⟩ := Er.tnr_pos _ hsr hfc
  have hnl : 0 < Er.nl ⟨oe, ig, rt, snr, sr, fc, N⟩ := Er.nl_pos _ hoe hsr
  have hro0 : 0 < Er.tnr ⟨oe, ig, rt, snr, sr, fc, N⟩ / Er.nl ⟨oe, ig, rt, snr, sr, fc, N⟩ :=
    div_pos htnr hnl
  by_cases hc : Er.tnr ⟨oe, ig, rt, snr, sr, fc, N⟩ / Er.nl ⟨oe, ig, rt, snr, sr, fc, N⟩ =
      Er.ri ⟨oe, ig, rt, snr, sr, fc, N⟩
  · have hro_eq : Er.ro ⟨oe, ig, rt, snr, sr, fc, N⟩ =
        Er.tnr ⟨oe, ig, rt, snr, sr, fc, N⟩ / Er.nl ⟨oe, ig, rt, snr, sr, fc, N⟩ + 0.0001 := by
      simp only [Er.ro, if_pos hc]
    have hro : 0 < Er.ro ⟨oe, ig, rt, snr, sr, fc, N⟩ := by
      rw [hro_eq]
      linarith
    have hdiff : Er.ro ⟨oe, ig, rt, snr, sr, fc, N⟩ - Er.ri ⟨oe, ig, rt, snr, sr, fc, N⟩ ≠ 0 := by
      rw [hro_eq, hc]
      ring_nf
      norm_num
    have hexp : 1 < Real.exp (Er.ro ⟨oe, ig, rt, snr, sr, fc, N⟩ / 2) := by
      calc (1 : ℝ) = Real.exp 0 := (Real.exp_zero).symm
        _ < Real.exp (Er.ro ⟨oe, ig, rt, snr, sr, fc, N⟩ / 2) :=
          Real.exp_lt_exp.mpr (by linarith)
    exact ⟨fun _ => hro_eq, hdiff, mul_ne_zero (by linarith) hdiff⟩
  · have hro_eq : Er.ro ⟨oe, ig, rt, snr, sr, fc, N⟩ =
        Er.tnr ⟨oe, ig, rt, snr, sr, fc, N⟩ / Er.nl ⟨oe, ig, rt, snr, sr, fc, N⟩ := by
      simp only [Er.ro, if_neg hc]
    have hro : 0 < Er.ro ⟨oe, ig, rt, snr, sr, fc, N⟩ := by
      rw [hro_eq]
      exact hro0
    have hdiff : Er.ro ⟨oe, ig, rt, snr, sr, fc, N⟩ - Er.ri ⟨oe, ig, rt, snr, sr, fc, N⟩ ≠ 0 := by
      rw [hro_eq]
      exact sub_ne_zero_of_ne hc
    have hexp : 1 < Real.exp (Er.ro ⟨oe, ig, rt, snr, sr, fc, N⟩ / 2) := by
      calc (1 : ℝ) = Real.exp 0 := (Real.exp_zero).symm
        _ < Real.exp (Er.ro ⟨oe, ig, rt, snr, sr, fc, N⟩ / 2) :=
          Real.exp_lt_exp.mpr (by linarith)
    exact ⟨fun h => absurd h hc, hdiff, mul_ne_zero (by linarith) hdiff⟩

/-- Witness for `er_navg_denominator` at a concrete valid input. -/
theorem er_navg_denominator_inst :
    (Er.tnr ⟨1, 1, 1, 1, 1, 1, 2⟩ / Er.nl ⟨1, 1, 1, 1, 1, 1, 2⟩ =
        Er.ri ⟨1, 1, 1, 1, 1, 1, 2⟩ →
      Er.ro ⟨1, 1, 1, 1, 1, 1, 2⟩ =
        Er.tnr ⟨1, 1, 1, 1, 1, 1, 2⟩ / Er.nl ⟨1, 1, 1, 1, 1, 1, 2⟩ + 0.0001) ∧
    Er.ro ⟨1, 1, 1, 1, 1, 1, 2⟩ - Er.ri ⟨1, 1, 1, 1, 1, 1, 2⟩ ≠ 0 ∧
    (1 - Real.exp (Er.ro ⟨1, 1, 1, 1, 1, 1, 2⟩ / 2)) *
      (Er.ro ⟨1, 1, 1, 1, 1, 1, 2⟩ - Er.ri ⟨1, 1, 1, 1, 1, 1, 2⟩) ≠ 0 :=
  er_navg_denominator 1 1 1 1 1 1 2 (by norm_num) (by norm_num) (by norm_num)
    (by norm_num) (by norm_num) (by norm_num) (by norm_num)

end QubitReadout
